import Mathlib

/-!
Verification of the math-parser library (infix parsing, shunting-yard
conversion, stack evaluation, subexpression location, symbolic
differentiation) against its natural-language specification.

The development shallowly embeds the C++ sources:
  * `token.h`    : token/operation vocabulary and the static tables;
  * `expression.h`: the `expr` class (string constructor, `postfix()`,
    `evaluate`, `subexpr_begin`);
  * `derivative.h`: the differentiation engine.

Modelling conventions:
  * `std::complex<T>` values are modelled exactly over `ℚ × ℚ` (`CQ`).
    The concrete computations the claims touch involve only small
    integer arithmetic, on which IEEE doubles are exact.  Transcendental
    evaluators (`std::pow`, `exp`, trig, ...) have no exact rational
    counterpart; their table entries are kept with a placeholder value
    (`ctrans`); no claim inspects a transcendental evaluation result.
  * a C++ `throw` is an `Except.error` carrying a constructor that
    identifies the throw site; spots where the C++ has undefined
    behaviour per the standard (calling `top()` on an empty
    `std::stack`, decrementing an iterator past `begin`, `std::prev` on
    a begin iterator) are modelled as distinct `ub...` error values.
  * `std::list` (libstdc++) stores an element count next to the node
    chain.  `differentiate_bin_op_mul` contains the statement
    `p_2.insert(p_1.end(), begin, mid);` which inserts through an
    iterator of a *different* list: the nodes are linked into `p_1`'s
    chain while `p_2`'s count is incremented.  The engine's expressions
    are therefore modelled as a node chain together with a possibly
    diverging count (`dexpr` below), so that the subsequent
    `size() == 1` tests are evaluated exactly as the program does.
-/

namespace MathParser

/-- `enum token_type` of `token.h`. -/
inductive token_type where
  | VAR | CONST | BIN_OP | FUNC | OTHER_TYPE
deriving DecidableEq, Repr

export token_type (VAR CONST BIN_OP FUNC OTHER_TYPE)

/-- `enum operation` of `token.h`. -/
inductive operation where
  | L_BRACKET | R_BRACKET | ADD | SUB | NEG | MUL | DIV | POW
  | RE | IM | ABS | ARG | CONJ | EXP | LOG
  | COS | SIN | TAN | SEC | CSC | COT
  | ACOS | ASIN | ATAN | COSH | SINH | TANH | ACOSH | ASINH | ATANH
  | DERIV | NO_OP
deriving DecidableEq, Repr, Fintype

export operation (L_BRACKET R_BRACKET ADD SUB NEG MUL DIV POW RE IM ABS ARG
  CONJ EXP LOG COS SIN TAN SEC CSC COT ACOS ASIN ATAN COSH SINH TANH ACOSH
  ASINH ATANH DERIV NO_OP)

/-- `std::complex` modelled exactly over the rationals. -/
structure CQ where
  re : ℚ
  im : ℚ
deriving DecidableEq, Repr

instance : OfNat CQ n := ⟨⟨n, 0⟩⟩

/-- Complex addition (`operator+` of `std::complex`). -/
def cadd (a b : CQ) : CQ := ⟨a.re + b.re, a.im + b.im⟩

/-- Complex subtraction. -/
def csub (a b : CQ) : CQ := ⟨a.re - b.re, a.im - b.im⟩

/-- Complex negation. -/
def cneg (a : CQ) : CQ := ⟨-a.re, -a.im⟩

/-- Complex multiplication. -/
def cmul (a b : CQ) : CQ := ⟨a.re * b.re - a.im * b.im, a.re * b.im + a.im * b.re⟩

/-- Complex division, by the exact field formula (to which libstdc++'s
scaled Smith algorithm agrees in exact arithmetic). -/
def cdiv (a b : CQ) : CQ :=
  ⟨(a.re * b.re + a.im * b.im) / (b.re * b.re + b.im * b.im),
   (a.im * b.re - a.re * b.im) / (b.re * b.re + b.im * b.im)⟩

/-- Placeholder for the transcendental evaluators (`std::pow`, `exp`,
trig...), which have no exact rational model.  No claim inspects a value
computed through it. -/
def ctrans (_ : operation) (_ : CQ) : CQ := ⟨0, 0⟩

/-- Placeholder for complex `std::pow`. -/
def cpow (_ _ : CQ) : CQ := ⟨0, 0⟩

/-- `struct token` of `token.h`.  `val` is zero-initialised by the
brace initialisers `{type, op}` used throughout the sources. -/
structure token where
  type : token_type
  op : operation
  val : CQ
deriving DecidableEq, Repr

/-- Every C++ `throw` site (and every undefined-behaviour site, prefixed
`ub`) of the embedded code. -/
inductive Err where
  /-- "Operation not found." (`get_operation`) -/
  | opNotFound
  /-- "Binary operation not found." (`get_bin_op`) -/
  | binOpNotFound
  /-- "Function not found." (`get_func`) -/
  | funcNotFound
  /-- "Type not found." (`get_precedence`) -/
  | precNotFound
  /-- "Operation end index not found." (`get_op_end_index`) -/
  | opEndNotFound
  /-- "Invalid number formatting detected." (two decimal points) -/
  | invalidNumber
  /-- `std::stod` given a string with no parsable number -/
  | stodFail
  /-- `std::string::substr` called with a start position past the end -/
  | substrRange
  /-- "Mismatched brackets in infix expression." (`expr::postfix`) -/
  | mismatchedBrackets
  /-- "Unrecognized token to differentiate." /
      "Expression to differentiate is not ..." /
      "Unrecognized/unimplemented binary operator." -/
  | invalidDiff
  /-- "Derivative not found." (`get_deriv`) -/
  | derivNotFound
  /-- "Unexpected token encountered." (`std::logic_error`,
      `differentiate_func`) -/
  | logicErr
  /-- `top()` on an empty `std::stack` (undefined behaviour) -/
  | ubEmptyTop
  /-- `std::prev(end)` on an empty iterator range (undefined behaviour) -/
  | ubPrevEnd
  /-- `subexpr_begin` decrementing the iterator past `begin`
      (undefined behaviour) -/
  | ubWalkPastBegin
deriving DecidableEq, Repr

/-- `get_bin_op` of `token.h`: the five binary evaluators.  `POW` is
`std::pow`, modelled by the `cpow` placeholder. -/
def get_bin_op (op : operation) : Option (CQ → CQ → CQ) :=
  match op with
  | ADD => some cadd
  | SUB => some csub
  | MUL => some cmul
  | DIV => some cdiv
  | POW => some cpow
  | _ => none

/-- `get_func` of `token.h`: the unary evaluators.  Entries whose values
are exactly representable over `ℚ` are modelled exactly; the
transcendental ones through the `ctrans` placeholder. -/
def get_func (op : operation) : Option (CQ → CQ) :=
  match op with
  | NEG => some cneg
  | RE => some (fun z => ⟨z.re, 0⟩)
  | IM => some (fun z => ⟨z.im, 0⟩)
  | ABS => some (ctrans ABS)
  | ARG => some (ctrans ARG)
  | CONJ => some (fun z => ⟨z.re, -z.im⟩)
  | EXP => some (ctrans EXP)
  | LOG => some (ctrans LOG)
  | COS => some (ctrans COS)
  | SIN => some (ctrans SIN)
  | TAN => some (ctrans TAN)
  | SEC => some (ctrans SEC)
  | CSC => some (ctrans CSC)
  | COT => some (ctrans COT)
  | ACOS => some (ctrans ACOS)
  | ASIN => some (ctrans ASIN)
  | ATAN => some (ctrans ATAN)
  | COSH => some (ctrans COSH)
  | SINH => some (ctrans SINH)
  | TANH => some (ctrans TANH)
  | ACOSH => some (ctrans ACOSH)
  | ASINH => some (ctrans ASINH)
  | ATANH => some (ctrans ATANH)
  | DERIV => some (fun _ => ⟨0, 0⟩)
  | _ => none

/-- `get_operation` of `token.h`: string name to operation.  Note the
source maps `sec ... atanh` all to `operation::TAN`. -/
def get_operation (s : String) : Option operation :=
  if s = "\x7b" then some L_BRACKET
  else if s = "\x7d" then some R_BRACKET
  else if s = "(" then some L_BRACKET
  else if s = ")" then some R_BRACKET
  else if s = "+" then some ADD
  else if s = "-" then some SUB
  else if s = "*" then some MUL
  else if s = "/" then some DIV
  else if s = "^" then some POW
  else if s = "re" then some RE
  else if s = "im" then some IM
  else if s = "abs" then some ABS
  else if s = "arg" then some ARG
  else if s = "conj" then some CONJ
  else if s = "exp" then some EXP
  else if s = "log" then some LOG
  else if s = "cos" then some COS
  else if s = "sin" then some SIN
  else if s = "tan" then some TAN
  else if s = "sec" then some TAN
  else if s = "csc" then some TAN
  else if s = "cot" then some TAN
  else if s = "acos" then some TAN
  else if s = "asin" then some TAN
  else if s = "atan" then some TAN
  else if s = "cosh" then some TAN
  else if s = "sinh" then some TAN
  else if s = "tanh" then some TAN
  else if s = "acosh" then some TAN
  else if s = "asinh" then some TAN
  else if s = "atanh" then some TAN
  else if s = "deriv" then some DERIV
  else none

/-- `get_precedence` of `token.h`.  `NO_OP` has no entry (throws). -/
def get_precedence (op : operation) : Option Nat :=
  match op with
  | L_BRACKET => some 4
  | R_BRACKET => some 4
  | ADD => some 0
  | SUB => some 0
  | NEG => some 1
  | MUL => some 1
  | DIV => some 1
  | POW => some 2
  | RE => some 3
  | IM => some 3
  | ABS => some 3
  | ARG => some 3
  | CONJ => some 3
  | EXP => some 3
  | LOG => some 3
  | COS => some 3
  | SIN => some 3
  | TAN => some 3
  | SEC => some 3
  | CSC => some 3
  | COT => some 3
  | ACOS => some 3
  | ASIN => some 3
  | ATAN => some 3
  | COSH => some 3
  | SINH => some 3
  | TANH => some 3
  | ACOSH => some 3
  | ASINH => some 3
  | ATANH => some 3
  | DERIV => some 3
  | NO_OP => none

/-- `get_token_type` of `token.h` (total: every enum value has an entry). -/
def get_token_type (op : operation) : token_type :=
  match op with
  | L_BRACKET => OTHER_TYPE
  | R_BRACKET => OTHER_TYPE
  | ADD => BIN_OP
  | SUB => BIN_OP
  | NEG => FUNC
  | MUL => BIN_OP
  | DIV => BIN_OP
  | POW => BIN_OP
  | RE => FUNC
  | IM => FUNC
  | ABS => FUNC
  | ARG => FUNC
  | CONJ => FUNC
  | EXP => FUNC
  | LOG => FUNC
  | COS => FUNC
  | SIN => FUNC
  | TAN => FUNC
  | SEC => FUNC
  | CSC => FUNC
  | COT => FUNC
  | ACOS => FUNC
  | ASIN => FUNC
  | ATAN => FUNC
  | COSH => FUNC
  | SINH => FUNC
  | TANH => FUNC
  | ACOSH => FUNC
  | ASINH => FUNC
  | ATANH => FUNC
  | DERIV => FUNC
  | NO_OP => OTHER_TYPE

/-- The brace characters (escaped per project conventions). -/
def lbraceC : Char := '\x7b'

/-- Closing brace character. -/
def rbraceC : Char := '\x7d'

/-- `expr` of `expression.h`: the token list `m_expr` plus the
infix/post-fix tag `m_postfix` (named `m_post` here). -/
structure expr where
  m_expr : List token
  m_post : Bool
deriving DecidableEq, Repr

/-- The operator/bracket characters that terminate an escaped function
name in `expr::get_op_end_index`. -/
def opTermChars : List Char := ['\\', '-', '+', '*', '/', '^', lbraceC, '(', '[']

/-- Predicate for a digit-run character (`std::isdigit(c) || c == '.'`). -/
def isNumChar (c : Char) : Bool := c.isDigit || c == '.'

/-- Numeric value of a digit list (most significant first). -/
def digitsVal (ds : List Char) : ℚ :=
  ds.foldl (fun acc c => acc * 10 + ((c.toNat - '0'.toNat : Nat) : ℚ)) 0

/-- Model of `std::stod`: optional sign, an integer digit run, an
optional decimal point and fractional digit run; fails when no digit is
present.  (Exponent suffixes, hex floats and leading whitespace, which
`std::stod` would also accept, never occur in this library's inputs:
the tokenizer only passes digit/point runs or bracketed literal halves.) -/
def stodQ (cs0 : List Char) : Option ℚ :=
  let cs := if cs0.head? = some '-' then cs0.drop 1 else
            if cs0.head? = some '+' then cs0.drop 1 else cs0
  let sign : ℚ := if cs0.head? = some '-' then -1 else 1
  let intP := cs.takeWhile Char.isDigit
  let rest := cs.drop intP.length
  match rest.head? with
  | some '.' =>
    let frac := (rest.drop 1).takeWhile Char.isDigit
    if intP.isEmpty && frac.isEmpty then none
    else some (sign * (digitsVal intP + digitsVal frac / (10 : ℚ) ^ frac.length))
  | _ =>
    if intP.isEmpty then none
    else some (sign * digitsVal intP)

/-- The character-level scanner of `expr::expr(const std::string&)`
(`expression.h`).  `prev` is the previously consumed character
(`cleaned[i-1]`), used by the unary-minus rule.  One recursive step per
loop iteration of the source; each branch consumes exactly the
characters the source consumes.

The `e`/`pi` constants carry the exact decimal literals of the source
(the doubles the program stores are their nearest-double roundings; no
claim evaluates them). -/
def scanChars (prev : Option Char) : List Char → Except Err (List token)
  | [] => .ok []
  | c :: cs =>
    if c = '\\' then
      -- escaped operation name, delimited per get_op_end_index
      let nm := cs.takeWhile (fun ch => !(opTermChars.contains ch))
      let rest := cs.drop nm.length
      if rest.isEmpty then .error .opEndNotFound
      else
        match get_operation (String.mk nm) with
        | none => .error .opNotFound
        | some op =>
          (scanChars (some (nm.getLastD '\\')) rest).map
            (fun ts => ⟨get_token_type op, op, ⟨0, 0⟩⟩ :: ts)
    else if c = '-' && (prev = none || prev = some lbraceC || prev = some '(') then
      -- unary negation at start of input or right after an open bracket
      (scanChars (some '-') cs).map (fun ts => ⟨FUNC, NEG, ⟨0, 0⟩⟩ :: ts)
    else if isNumChar c then
      -- a number: the maximal digit/point run, optional imaginary suffix
      let run2 := cs.takeWhile isNumChar
      let run := c :: run2
      let rest := cs.drop run2.length
      if 2 ≤ (run.filter (fun ch => ch == '.')).length then .error .invalidNumber
      else
        match stodQ run with
        | none => .error .stodFail
        | some q =>
          if rest.head? = some 'i' then
            (scanChars (some 'i') (rest.drop 1)).map
              (fun ts => ⟨CONST, NO_OP, ⟨0, q⟩⟩ :: ts)
          else
            (scanChars (some (run.getLastD c)) rest).map
              (fun ts => ⟨CONST, NO_OP, ⟨q, 0⟩⟩ :: ts)
    else if c = '[' then
      -- a complex literal [re,im]
      let c1 := cs.takeWhile (fun ch => ch != ',')
      let r1 := cs.drop c1.length
      match stodQ c1 with
      | none => .error .stodFail
      | some re =>
        if r1.isEmpty then .error .substrRange  -- no comma: substr past the end
        else
          let r2 := r1.drop 1
          let c2 := r2.takeWhile (fun ch => ch != ']')
          let r3 := r2.drop c2.length
          match stodQ c2 with
          | none => .error .stodFail
          | some im =>
            (scanChars (some ']') (r3.drop 1)).map
              (fun ts => ⟨CONST, NO_OP, ⟨re, im⟩⟩ :: ts)
    else if c = 'i' then
      (scanChars (some 'i') cs).map (fun ts => ⟨CONST, NO_OP, ⟨0, 1⟩⟩ :: ts)
    else if c = 'e' then
      (scanChars (some 'e') cs).map
        (fun ts => ⟨CONST, NO_OP, ⟨2.71828182845904523536, 0⟩⟩ :: ts)
    else if c = 'p' && cs.head? = some 'i' then
      (scanChars (some 'i') (cs.drop 1)).map
        (fun ts => ⟨CONST, NO_OP, ⟨3.14159265358979323846, 0⟩⟩ :: ts)
    else if c = 'z' then
      (scanChars (some 'z') cs).map (fun ts => ⟨VAR, NO_OP, ⟨0, 0⟩⟩ :: ts)
    else
      match get_operation (String.mk [c]) with
      | none => .error .opNotFound
      | some op =>
        (scanChars (some c) cs).map
          (fun ts => ⟨get_token_type op, op, ⟨0, 0⟩⟩ :: ts)
termination_by l => l.length
decreasing_by
  all_goals simp_all [List.length_drop]
  all_goals omega

/-- `expr::expr(const std::string&)`: remove spaces, scan, tag infix. -/
def parse (s : String) : Except Err expr :=
  (scanChars none (s.data.filter (fun ch => ch != ' '))).map
    (fun ts => ⟨ts, false⟩)

/-- The binary-operator pop loop of `expr::postfix`: pop-and-emit while
the stack is nonempty, its top is not an open bracket, and the top's
precedence is at least the incoming operator's. -/
def syPop (tp : Nat) (out stk : List token) :
    Except Err (List token × List token) :=
  match stk with
  | [] => .ok (out, [])
  | top :: rest =>
    if top.op = L_BRACKET then .ok (out, top :: rest)
    else
      match get_precedence top.op with
      | none => .error .precNotFound
      | some p =>
        if tp ≤ p then syPop tp (out ++ [top]) rest else .ok (out, top :: rest)

/-- The close-bracket handler of `expr::postfix`.  The source evaluates
`stack.top()` in the loop condition *before* its `stack.empty()` guard,
and evaluates `stack.top().type == FUNC` right after popping the open
bracket with no guard at all; both spots are undefined behaviour on an
empty stack (`ubEmptyTop`), and the in-loop `MismatchedBrackets` throw
is unreachable. -/
def syRB (out stk : List token) : Except Err (List token × List token) :=
  match stk with
  | [] => .error .ubEmptyTop
  | top :: rest =>
    if top.op = L_BRACKET then
      match rest with
      | [] => .error .ubEmptyTop
      | f :: rest' =>
        if f.type = FUNC then .ok (out ++ [f], rest') else .ok (out, f :: rest')
    else syRB (out ++ [top]) rest

/-- The end-of-input drain loop of `expr::postfix`. -/
def syDrain (out : List token) : List token → Except Err (List token)
  | [] => .ok out
  | top :: rest =>
    if top.op = L_BRACKET then .error .mismatchedBrackets
    else syDrain (out ++ [top]) rest

/-- The main token loop of `expr::postfix` (shunting yard).  A token
matching none of the source's branches (type `OTHER_TYPE`, op neither
bracket) is silently skipped, as in the source. -/
def syMain : List token → List token → List token → Except Err (List token)
  | [], out, stk => syDrain out stk
  | t :: rest, out, stk =>
    match t.type with
    | VAR => syMain rest (out ++ [t]) stk
    | CONST => syMain rest (out ++ [t]) stk
    | FUNC => syMain rest out (t :: stk)
    | BIN_OP =>
      match get_precedence t.op with
      | none => .error .precNotFound
      | some tp =>
        match syPop tp out stk with
        | .error e => .error e
        | .ok (out', stk') => syMain rest out' (t :: stk')
    | OTHER_TYPE =>
      if t.op = L_BRACKET then syMain rest out (t :: stk)
      else if t.op = R_BRACKET then
        match syRB out stk with
        | .error e => .error e
        | .ok (out', stk') => syMain rest out' stk'
      else syMain rest out stk

/-- `expr::postfix()`: the identity on an already-postfix expression,
otherwise the shunting-yard conversion, returned tagged postfix. -/
def toPost (e : expr) : Except Err expr :=
  if e.m_post then .ok e
  else (syMain e.m_expr [] []).map (fun l => ⟨l, true⟩)

/-- Final `top()`/`pop()` of `expr::evaluate` (undefined behaviour when
the stack is empty). -/
def evalFinish : List CQ → Except Err CQ
  | [] => .error .ubEmptyTop
  | v :: _ => .ok v

/-- The stack-machine loop of `expr::evaluate`.  `BIN_OP` pops the right
operand first, then the left, and applies `get_bin_op` left-first.
Tokens of type `OTHER_TYPE` match no branch and are skipped. -/
def evalGo (z : CQ) : List token → List CQ → Except Err CQ
  | [], stk => evalFinish stk
  | t :: rest, stk =>
    match t.type with
    | CONST => evalGo z rest (t.val :: stk)
    | VAR => evalGo z rest (z :: stk)
    | FUNC =>
      match stk with
      | [] => .error .ubEmptyTop
      | v :: stk' =>
        match get_func t.op with
        | none => .error .funcNotFound
        | some f => evalGo z rest (f v :: stk')
    | BIN_OP =>
      match stk with
      | [] => .error .ubEmptyTop
      | v1 :: stk' =>
        match stk' with
        | [] => .error .ubEmptyTop
        | v2 :: stk'' =>
          match get_bin_op t.op with
          | none => .error .binOpNotFound
          | some f => evalGo z rest (f v2 v1 :: stk'')
    | OTHER_TYPE => evalGo z rest stk

/-- `expr::evaluate(z)`. -/
def evaluate (e : expr) (z : CQ) : Except Err CQ := evalGo z e.m_expr []

/-- How much `subexpr_begin` *increases* its pending counter `k` before
the per-token decrement: 2 for a binary operator, 1 for a function,
0 otherwise. -/
def incr (t : token) : Nat :=
  match t.type with
  | FUNC => 1
  | BIN_OP => 2
  | _ => 0

/-- The backward walk of `expr::subexpr_begin`, expressed on the
reversed token prefix: with pending count `k`, consume one token `t`,
continuing with `k - 1 + incr t`; stop when `k` hits zero, returning the
number of tokens consumed.  Walking off the front of the sequence
(`start--` past `begin`) is undefined behaviour, modelled as `none`. -/
def locWalk : Nat → List token → Option Nat
  | 0, _ => some 0
  | _ + 1, [] => none
  | k + 1, t :: rest => (locWalk (k + incr t) rest).map (· + 1)

/-- `expr::subexpr_begin`, for the boundary `e` into the sequence `l`
(the C++ iterator `end` at position `e`): the returned position of the
first token of the smallest legal subexpression ending at `e`, or `none`
where the C++ has undefined behaviour (iterator decremented past
`begin`). -/
def subexpr_begin (l : List token) (e : Nat) : Option Nat :=
  (locWalk 1 ((l.take e).reverse)).map (fun n => e - n)

/-- One step of the spec's pending-operand counter (§3 of the spec): a
leaf pushes one operand, a unary function consumes one and produces one
(so needs one available), a binary operator consumes two and produces
one (so needs two available); any other token kind is not postfix
vocabulary. -/
def stepCnt (c : Nat) (t : token) : Option Nat :=
  match t.type with
  | VAR => some (c + 1)
  | CONST => some (c + 1)
  | FUNC => if 1 ≤ c then some c else none
  | BIN_OP => if 2 ≤ c then some (c - 1) else none
  | OTHER_TYPE => none

/-- Run the pending-operand counter over a sequence. -/
def runCnt : Nat → List token → Option Nat
  | c, [] => some c
  | c, t :: rest =>
    match stepCnt c t with
    | none => none
    | some c' => runCnt c' rest

/-- Well-formed postfix: the counter never underflows and finishes at
exactly one pending operand. -/
def wfP (l : List token) : Prop := runCnt 0 l = some 1

instance (l : List token) : Decidable (wfP l) :=
  inferInstanceAs (Decidable (runCnt 0 l = some 1))

/-- Net stack effect of one token (`+1` leaf, `0` unary, `-1` binary);
chosen so that `net t = 1 - incr t` also for `OTHER_TYPE` tokens, which
well-formedness excludes anyway. -/
def net (t : token) : Int := 1 - (incr t : Int)

/-- Sum of net stack effects. -/
def delta (l : List token) : Int := (l.map net).sum

/-! ### The differentiation engine (`derivative.h`)

The engine's intermediate `expr` objects are modelled as `dexpr`: the
list node chain (`lst`) together with the `std::list` element count
(`sz`).  The two agree for every operation except the cross-list
`p_2.insert(p_1.end(), begin, mid)` in `differentiate_bin_op_mul`,
after which `p_1` carries extra nodes its count does not reflect and
`p_2`'s count exceeds its chain length.  The `size()` comparisons of
the source read the count; `front()` and all iteration read the chain. -/

/-- An engine expression: node chain plus stored element count. -/
structure dexpr where
  lst : List token
  sz : Nat
deriving DecidableEq, Repr

/-- An `expr` built from an iterator range or initializer list (count
matches the chain). -/
def dofList (xs : List token) : dexpr := ⟨xs, xs.length⟩

/-- `insert(end(), first, last)` on one's own list. -/
def dappend (d : dexpr) (xs : List token) : dexpr := ⟨d.lst ++ xs, d.sz + xs.length⟩

/-- `emplace_back`. -/
def dpush (d : dexpr) (t : token) : dexpr := ⟨d.lst ++ [t], d.sz + 1⟩

/-- `emplace_front`. -/
def dpushFront (t : token) (d : dexpr) : dexpr := ⟨t :: d.lst, d.sz + 1⟩

/-- `insert(begin(), first, last)` on one's own list. -/
def dprepend (xs : List token) (d : dexpr) : dexpr := ⟨xs ++ d.lst, d.sz + xs.length⟩

/-- `d.insert(d.end(), make_move_iterator(e.begin()), make_move_iterator(e.end()))`:
walks `e`'s chain, so the count grows by the chain length. -/
def dmoveAppend (d e : dexpr) : dexpr := ⟨d.lst ++ e.lst, d.sz + e.lst.length⟩

/-- `size() == 1 && front().type == CONST && front().val == 0` — the
structural-zero test of the engine.  `front()` on an empty chain would
be undefined behaviour; every expression the engine builds has a
nonempty chain, so the `[]` arm is unreachable. -/
def disZero (d : dexpr) : Bool :=
  d.sz == 1 &&
    (match d.lst with
     | t :: _ => t.type == CONST && t.val == (⟨0, 0⟩ : CQ)
     | [] => false)

/-- `get_deriv` of `derivative.h`: the elementary-derivative table,
keyed by the token's operation; only `SIN` and `COS` have entries. -/
def get_deriv (op : operation) : Option dexpr :=
  match op with
  | SIN => some ⟨[⟨FUNC, COS, ⟨0, 0⟩⟩], 1⟩
  | COS => some ⟨[⟨FUNC, SIN, ⟨0, 0⟩⟩, ⟨FUNC, NEG, ⟨0, 0⟩⟩], 2⟩
  | _ => none

/-- Token built by `emplace_back(CONST, NO_OP, 0.0)` and friends. -/
def c0T : token := ⟨CONST, NO_OP, ⟨0, 0⟩⟩

/-- Constant-one token. -/
def c1T : token := ⟨CONST, NO_OP, ⟨1, 0⟩⟩

/-- `{BIN_OP, MUL}` token (value zero-initialised). -/
def mulT : token := ⟨BIN_OP, MUL, ⟨0, 0⟩⟩

/-- `{BIN_OP, ADD}` token. -/
def addT : token := ⟨BIN_OP, ADD, ⟨0, 0⟩⟩

/-- `{BIN_OP, SUB}` token. -/
def subT : token := ⟨BIN_OP, SUB, ⟨0, 0⟩⟩

/-- `{BIN_OP, POW}` token. -/
def powT : token := ⟨BIN_OP, POW, ⟨0, 0⟩⟩

/-- `{BIN_OP, DIV}` token. -/
def divT : token := ⟨BIN_OP, DIV, ⟨0, 0⟩⟩

/-- `{FUNC, NEG}` token. -/
def negT : token := ⟨FUNC, NEG, ⟨0, 0⟩⟩

/-- `{FUNC, LOG}` token. -/
def logT : token := ⟨FUNC, LOG, ⟨0, 0⟩⟩

/-- `{VAR, NO_OP}` token. -/
def varT : token := ⟨VAR, NO_OP, ⟨0, 0⟩⟩

mutual

/-- `differentiate(begin, end)` of `derivative.h`, on the token range
`l = [begin, end)`.  `std::prev(end)` on an empty range is undefined
behaviour (`ubPrevEnd`). -/
def differentiate (l : List token) : Except Err dexpr :=
  match h : l.getLast? with
  | none => .error .ubPrevEnd
  | some t =>
    match t.type with
    | VAR => .ok ⟨[c1T], 1⟩
    | CONST => .ok ⟨[c0T], 1⟩
    | FUNC => differentiate_func l
    | BIN_OP => differentiate_bin_op l
    | OTHER_TYPE => .error .invalidDiff
termination_by 3 * l.length + 2
decreasing_by
  all_goals
    (have hl : l ≠ [] := by intro hh; subst hh; simp at h
     have h1 : 1 ≤ l.length := List.length_pos.mpr hl
     try simp only [List.length_take, List.length_drop, List.length_dropLast]
     omega)

/-- `differentiate_func`.  `begin == std::prev(f)` is the
`body.length = 1` test (for an empty body the real iterators compare
begin to the list sentinel, which is false, and the general branch's
recursive call hits `std::prev` of a begin iterator — modelled by the
recursive call on `[]` returning `ubPrevEnd`). -/
def differentiate_func (l : List token) : Except Err dexpr :=
  match h : l.getLast? with
  | none => .error .ubPrevEnd
  | some f =>
    if f.type = FUNC then
      let body := l.dropLast
      if body.length = 1 then
        match body.head? with
        | some b =>
          if b.type = CONST then .ok ⟨[c0T], 1⟩
          else if b.type = VAR then
            match get_deriv f.op with
            | none => .error .derivNotFound
            | some d => .ok (dpushFront varT d)
          else .error .logicErr
        | none => .error .logicErr
      else
        match differentiate body with
        | .error e => .error e
        | .ok gd =>
          match get_deriv f.op with
          | none => .error .derivNotFound
          | some fd => .ok (dpush (dmoveAppend (dappend gd body) fd) mulT)
    else .error .invalidDiff
termination_by 3 * l.length + 1
decreasing_by
  all_goals
    (have hl : l ≠ [] := by intro hh; subst hh; simp at h
     have h1 : 1 ≤ l.length := List.length_pos.mpr hl
     try simp only [List.length_take, List.length_drop, List.length_dropLast]
     omega)

/-- `differentiate_bin_op`: dispatch on the trailing binary operator. -/
def differentiate_bin_op (l : List token) : Except Err dexpr :=
  match h : l.getLast? with
  | none => .error .ubPrevEnd
  | some b =>
    if b.type = BIN_OP then
      match b.op with
      | ADD => differentiate_bin_op_add_sub l
      | SUB => differentiate_bin_op_add_sub l
      | MUL => differentiate_bin_op_mul l
      | DIV => differentiate_bin_op_div l
      | POW => differentiate_bin_op_pow l
      | _ => .error .invalidDiff
    else .error .invalidDiff
termination_by 3 * l.length + 1
decreasing_by
  all_goals
    (have hl : l ≠ [] := by intro hh; subst hh; simp at h
     have h1 : 1 ≤ l.length := List.length_pos.mpr hl
     try simp only [List.length_take, List.length_drop, List.length_dropLast]
     omega)

/-- `differentiate_bin_op_add_sub`. -/
def differentiate_bin_op_add_sub (l : List token) : Except Err dexpr :=
  match h : l.getLast? with
  | none => .error .ubPrevEnd
  | some opT =>
    if opT.op = ADD ∨ opT.op = SUB then
      let body := l.dropLast
      match subexpr_begin body body.length with
      | none => .error .ubWalkPastBegin
      | some mid =>
        let fsl := body.take mid
        let gsl := body.drop mid
        if mid == 1 && body.head?.elim false (fun b => b.type == CONST) then
          -- [f] is a single constant: the derivative is [g'] (negated
          -- under SUB, constant-folded when [g'] is a single constant)
          match differentiate gsl with
          | .error e => .error e
          | .ok gd =>
            if opT.op = SUB then
              if gd.sz == 1 && gd.lst.head?.elim false (fun t => t.type == CONST) then
                match gd.lst with
                | t0 :: r => .ok ⟨⟨t0.type, t0.op, cneg t0.val⟩ :: r, gd.sz⟩
                | [] => .error .ubEmptyTop
              else .ok (dpush gd negT)
            else .ok gd
        else if mid == body.length - 1 && gsl.head?.elim false (fun b => b.type == CONST) then
          -- [g] is a single constant: the derivative is [f']
          differentiate fsl
        else
          match differentiate fsl with
          | .error e => .error e
          | .ok fd =>
            match differentiate gsl with
            | .error e => .error e
            | .ok gd => .ok (dpush (dmoveAppend fd gd) opT)
    else .error .invalidDiff
termination_by 3 * l.length
decreasing_by
  all_goals
    (have hl : l ≠ [] := by intro hh; subst hh; simp at h
     have h1 : 1 ≤ l.length := List.length_pos.mpr hl
     try simp only [List.length_take, List.length_drop, List.length_dropLast]
     omega)

/-- `differentiate_bin_op_mul`.  Two source defects are modelled
faithfully: the guard `mid == std::prev(mid)` (false for every
iterator, so both fast paths for `[g]` are dead and the general branch
always runs), and `p_2.insert(p_1.end(), begin, mid)` (the `[f]` slice
is linked into `p_1`'s chain while `p_2`'s count grows). -/
def differentiate_bin_op_mul (l : List token) : Except Err dexpr :=
  match h : l.getLast? with
  | none => .error .ubPrevEnd
  | some opT =>
    if opT.op = MUL then
      let body := l.dropLast
      match subexpr_begin body body.length with
      | none => .error .ubWalkPastBegin
      | some mid =>
        let fsl := body.take mid
        let gsl := body.drop mid
        let p1E : Except Err dexpr :=
          if mid = 1 then
            match body.head? with
            | some b =>
              if b.type = CONST then .ok ⟨[c0T], 1⟩
              else if b.type = VAR then .ok (dofList gsl)
              else .ok ⟨[], 0⟩
                -- the source constructs std::invalid_argument here
                -- without throwing it; p_1 stays default-constructed
            | none => .ok ⟨[], 0⟩
          else
            match differentiate fsl with
            | .error e => .error e
            | .ok fd => .ok (dpush (dappend fd gsl) mulT)
        match p1E with
        | .error e => .error e
        | .ok p1 =>
          match differentiate gsl with
          | .error e => .error e
          | .ok gd =>
            let p1s : dexpr := ⟨p1.lst ++ fsl, p1.sz⟩
            let p2 : dexpr := ⟨gd.lst ++ [mulT], gd.sz + fsl.length + 1⟩
            if disZero p1s then .ok p2
            else if disZero p2 then .ok p1s
            else .ok (dpush (dmoveAppend p1s p2) addT)
    else .error .invalidDiff
termination_by 3 * l.length
decreasing_by
  all_goals
    (have hl : l ≠ [] := by intro hh; subst hh; simp at h
     have h1 : 1 ≤ l.length := List.length_pos.mpr hl
     try simp only [List.length_take, List.length_drop, List.length_dropLast]
     omega)

/-- `differentiate_bin_op_div`. -/
def differentiate_bin_op_div (l : List token) : Except Err dexpr :=
  match h : l.getLast? with
  | none => .error .ubPrevEnd
  | some opT =>
    if opT.op = DIV then
      let body := l.dropLast
      match subexpr_begin body body.length with
      | none => .error .ubWalkPastBegin
      | some mid =>
        let fsl := body.take mid
        let gsl := body.drop mid
        if mid == body.length - 1 && gsl.head?.elim false (fun b => b.type == CONST) then
          -- [g] a single constant: the whole derivative is [f' (1/g) *]
          match gsl.head? with
          | some b =>
            match differentiate fsl with
            | .error e => .error e
            | .ok d => .ok (dpush (dpush d ⟨CONST, NO_OP, cdiv ⟨1, 0⟩ b.val⟩) mulT)
          | none => .error .ubEmptyTop
        else
          let p23E : Except Err (dexpr × dexpr) :=
            if mid = body.length - 1 then
              match gsl.head? with
              | some b =>
                if b.type = VAR then .ok (dofList fsl, dofList [varT, varT, mulT])
                else .ok (⟨[], 0⟩, ⟨[], 0⟩)
                  -- invalid_argument constructed but not thrown
              | none => .ok (⟨[], 0⟩, ⟨[], 0⟩)
            else
              match differentiate gsl with
              | .error e => .error e
              | .ok gd =>
                .ok (dpush (dprepend fsl gd) mulT,
                     dpush (dappend (dofList gsl) gsl) mulT)
          match p23E with
          | .error e => .error e
          | .ok (p2, p3) =>
            let p1E : Except Err dexpr :=
              if mid = 1 then
                match body.head? with
                | some b =>
                  if b.type = CONST then .ok ⟨[c0T], 1⟩
                  else if b.type = VAR then .ok (dofList gsl)
                  else .ok ⟨[], 0⟩
                | none => .ok ⟨[], 0⟩
              else
                match differentiate fsl with
                | .error e => .error e
                | .ok fd => .ok (dpush (dappend fd gsl) mulT)
            match p1E with
            | .error e => .error e
            | .ok p1 =>
              let numer : dexpr :=
                if disZero p1 then dpush p2 negT
                else dpush (dmoveAppend p1 p2) subT
              .ok (dpush (dmoveAppend numer p3) divT)
    else .error .invalidDiff
termination_by 3 * l.length
decreasing_by
  all_goals
    (have hl : l ≠ [] := by intro hh; subst hh; simp at h
     have h1 : 1 ≤ l.length := List.length_pos.mpr hl
     try simp only [List.length_take, List.length_drop, List.length_dropLast]
     omega)

/-- `differentiate_bin_op_pow`. -/
def differentiate_bin_op_pow (l : List token) : Except Err dexpr :=
  match h : l.getLast? with
  | none => .error .ubPrevEnd
  | some opT =>
    if opT.op = POW then
      let body := l.dropLast
      match subexpr_begin body body.length with
      | none => .error .ubWalkPastBegin
      | some mid =>
        let fsl := body.take mid
        let gsl := body.drop mid
        if mid == 1 && body.head?.elim false (fun b => b.type == CONST && b.val == (⟨0, 0⟩ : CQ)) then
          -- [f] is the constant 0: the whole derivative is [0]
          .ok ⟨[c0T], 1⟩
        else
          let p1E : Except Err dexpr :=
            if mid = 1 then
              match body.head? with
              | some b =>
                if b.type = CONST then .ok ⟨[c0T], 1⟩
                else if b.type = VAR then
                  -- p_1 = [g] [f] ([g-1] folded, or [g] 1 -) ^ *
                  let base := dappend (dofList gsl) fsl
                  let withExp :=
                    if mid == body.length - 1 &&
                        gsl.head?.elim false (fun g0 => g0.type == CONST) then
                      match gsl.head? with
                      | some g0 => dpush base ⟨CONST, NO_OP, csub g0.val ⟨1, 0⟩⟩
                      | none => base
                    else dpush (dpush (dappend base gsl) c1T) subT
                  .ok (dpush (dpush withExp powT) mulT)
                else .ok ⟨[], 0⟩
              | none => .ok ⟨[], 0⟩
            else
              match differentiate fsl with
              | .error e => .error e
              | .ok fd =>
                .ok (dpush (dpush (dpush (dpush (dpush
                      (dappend (dappend (dappend fd gsl) fsl) gsl) c1T)
                      subT) powT) mulT) mulT)
          match p1E with
          | .error e => .error e
          | .ok p1 =>
            let p2E : Except Err dexpr :=
              if mid = body.length - 1 then
                match gsl.head? with
                | some g0 =>
                  if g0.type = CONST then .ok ⟨[c0T], 1⟩
                  else if g0.type = VAR then
                    .ok (dpush (dpush (dappend (dappend
                          (dpush (dofList fsl) logT) fsl) gsl) powT) mulT)
                  else .ok ⟨[], 0⟩
                | none => .ok ⟨[], 0⟩
              else
                match differentiate gsl with
                | .error e => .error e
                | .ok gd =>
                  .ok (dpush (dpush (dpush (dappend (dappend
                        (dpush (dappend gd fsl) logT) fsl) gsl) powT) mulT) mulT)
            match p2E with
            | .error e => .error e
            | .ok p2 =>
              if disZero p1 then .ok p2
              else if disZero p2 then .ok p1
              else .ok (dpush (dmoveAppend p1 p2) addT)
    else .error .invalidDiff
termination_by 3 * l.length
decreasing_by
  all_goals
    (have hl : l ≠ [] := by intro hh; subst hh; simp at h
     have h1 : 1 ≤ l.length := List.length_pos.mpr hl
     try simp only [List.length_take, List.length_drop, List.length_dropLast]
     omega)

end

/-- `differentiate(const expr&)`: the public entry point; the result is
the recursion's node chain, tagged postfix. -/
def differentiateE (e : expr) : Except Err expr :=
  (differentiate e.m_expr).map (fun d => ⟨d.lst, true⟩)

/-! ### State-threading views of the member functions (frame claims)

`expr::evaluate` is a non-const member function: its object state
(`m_expr`, `m_postfix`) is threaded explicitly through every loop
iteration below, each iteration performing exactly the statements of
the source (all of which read, none of which write, the members). -/

/-- The loop of `expr::evaluate` with the object state threaded. -/
def evalGoSt (z : CQ) : expr → List token → List CQ → Except Err CQ × expr
  | st, [], stk => (evalFinish stk, st)
  | st, t :: rest, stk =>
    match t.type with
    | CONST => evalGoSt z st rest (t.val :: stk)
    | VAR => evalGoSt z st rest (z :: stk)
    | FUNC =>
      match stk with
      | [] => (.error .ubEmptyTop, st)
      | v :: stk' =>
        match get_func t.op with
        | none => (.error .funcNotFound, st)
        | some f => evalGoSt z st rest (f v :: stk')
    | BIN_OP =>
      match stk with
      | [] => (.error .ubEmptyTop, st)
      | v1 :: stk' =>
        match stk' with
        | [] => (.error .ubEmptyTop, st)
        | v2 :: stk'' =>
          match get_bin_op t.op with
          | none => (.error .binOpNotFound, st)
          | some f => evalGoSt z st rest (f v2 v1 :: stk'')
    | OTHER_TYPE => evalGoSt z st rest stk

/-- `expr::evaluate` as (result, final object state). -/
def evaluateSt (e : expr) (z : CQ) : Except Err CQ × expr :=
  evalGoSt z e e.m_expr []

/-- `expr::postfix` as (result, final object state): a `const` member
function; the conversion works entirely on local lists, the only member
access being the read-only range iteration over `m_expr`. -/
def toPostSt (e : expr) : Except Err expr × expr := (toPost e, e)

/-- `differentiate(const expr&)` as (result, final argument state): the
argument is taken by const reference and only read through const
iterators; every insertion targets freshly built lists. -/
def differentiateSt (e : expr) : Except Err expr × expr := (differentiateE e, e)

/-- No token of kind `OTHER_TYPE` (brackets and the like), which the
postfix counter rejects. -/
def noOther (l : List token) : Prop := ∀ t ∈ l, t.type ≠ OTHER_TYPE

/-- Every binary-operator token carries one of the five implemented
operators. -/
def implB (l : List token) : Prop :=
  ∀ t ∈ l, t.type = BIN_OP →
    t.op = ADD ∨ t.op = SUB ∨ t.op = MUL ∨ t.op = DIV ∨ t.op = POW

instance (l : List token) : Decidable (noOther l) :=
  inferInstanceAs (Decidable (∀ t ∈ l, t.type ≠ OTHER_TYPE))

instance (l : List token) : Decidable (implB l) :=
  inferInstanceAs (Decidable (∀ t ∈ l, t.type = BIN_OP →
    t.op = ADD ∨ t.op = SUB ∨ t.op = MUL ∨ t.op = DIV ∨ t.op = POW))

/-! ## Theorems -/

/-- The state component of the `evaluate` loop is returned unchanged:
no iteration writes a member. -/
theorem evalGoSt_snd (z : CQ) (st : expr) :
    ∀ (l : List token) (stk : List CQ), (evalGoSt z st l stk).2 = st := by
  intro l
  induction l with
  | nil => intro stk; rfl
  | cons t rest ih =>
    intro stk
    obtain ⟨ty, op1, v⟩ := t
    cases ty with
    | VAR => simpa only [evalGoSt] using ih (z :: stk)
    | CONST => simpa only [evalGoSt] using ih (v :: stk)
    | FUNC =>
      cases stk with
      | nil => rfl
      | cons v1 s1 =>
        cases hf : get_func op1 with
        | none => simp [evalGoSt, hf]
        | some f => simpa only [evalGoSt, hf] using ih (f v1 :: s1)
    | BIN_OP =>
      cases stk with
      | nil => rfl
      | cons v1 s1 =>
        cases s1 with
        | nil => rfl
        | cons v2 s2 =>
          cases hf : get_bin_op op1 with
          | none => simp [evalGoSt, hf]
          | some f => simpa only [evalGoSt, hf] using ih (f v2 v1 :: s2)
    | OTHER_TYPE => simpa only [evalGoSt] using ih stk

/-- C6: `to_postfix` is the identity on any expression already tagged
postfix: `postfix()` returns `*this` unchanged. -/
theorem c6_toPost_identity (e : expr) (h : e.m_post = true) :
    toPost e = .ok e := by
  simp [toPost, h]

/-- Witness for C6 at a concrete postfix expression. -/
theorem c6_witness :
    (expr.mk [varT] true).m_post = true ∧
      toPost (expr.mk [varT] true) = .ok (expr.mk [varT] true) :=
  ⟨rfl, c6_toPost_identity (expr.mk [varT] true) rfl⟩

/-- C7 counterexample: `NEG` is a unary-function operation
(`get_token_type NEG = FUNC`) whose precedence is 1, not strictly
greater than `POW`'s precedence 2 — refuting "every unary-function
operation ... a precedence strictly greater than POW's". -/
theorem c7_counterexample :
    get_token_type NEG = FUNC ∧ get_precedence NEG = some 1 ∧
      get_precedence POW = some 2 ∧ ¬ (2 : Nat) < 1 := by
  decide

/-- C7 amended: `ADD`/`SUB` have precedence 0, `MUL`/`DIV` precedence 1,
`POW` precedence 2, brackets precedence 4, and every unary-function
operation *except `NEG`* precedence 3 (strictly above `POW`); `NEG`
itself has precedence 1, tying `MUL`/`DIV`. -/
theorem c7_precedence_amended :
    get_precedence ADD = some 0 ∧ get_precedence SUB = some 0 ∧
    get_precedence MUL = some 1 ∧ get_precedence DIV = some 1 ∧
    get_precedence POW = some 2 ∧
    get_precedence L_BRACKET = some 4 ∧ get_precedence R_BRACKET = some 4 ∧
    get_precedence NEG = some 1 ∧
    (∀ op : operation, get_token_type op = FUNC → op ≠ NEG →
      get_precedence op = some 3) := by
  decide

/-- C9: in `get_operation`, the twelve names `sec, csc, cot, acos, asin,
atan, cosh, sinh, tanh, acosh, asinh, atanh` all map to the same
operation enum value as `tan` (namely `TAN`). -/
theorem c9_function_name_aliases :
    get_operation "tan" = some TAN ∧
    get_operation "sec" = some TAN ∧ get_operation "csc" = some TAN ∧
    get_operation "cot" = some TAN ∧ get_operation "acos" = some TAN ∧
    get_operation "asin" = some TAN ∧ get_operation "atan" = some TAN ∧
    get_operation "cosh" = some TAN ∧ get_operation "sinh" = some TAN ∧
    get_operation "tanh" = some TAN ∧ get_operation "acosh" = some TAN ∧
    get_operation "asinh" = some TAN ∧ get_operation "atanh" = some TAN := by
  decide

/-- C8: none of the exposed operations mutates its argument: the
state-threaded `evaluate` returns its object unchanged, and `postfix()`
(a const member) and `differentiate` (const reference parameter) leave
their input untouched, each returning a fresh value. -/
theorem c8_no_mutation (e : expr) (z : CQ) :
    (evaluateSt e z).2 = e ∧ (toPostSt e).2 = e ∧ (differentiateSt e).2 = e :=
  ⟨evalGoSt_snd z e e.m_expr [], rfl, rfl⟩

/-- C4: `evaluate(to_postfix(parse("3+4*2")), z)` is 11 for every `z`;
but on `"(3+4)*2"` the conversion never returns 14: after popping the
matched bracket pair the source reads `stack.top()` on the now-empty
stack (the unary-function check at the close bracket has no emptiness
guard), which is undefined behaviour. -/
theorem c4_pipeline :
    (∀ z : CQ,
      ((parse "3+4*2").bind toPost).bind (fun e => evaluate e z)
        = .ok ⟨11, 0⟩) ∧
    (parse "(3+4)*2").bind toPost = .error .ubEmptyTop := by
  constructor
  · intro z
    simp [parse, scanChars, isNumChar, stodQ, digitsVal, get_operation,
      get_token_type, opTermChars, lbraceC, Except.map, Except.bind, toPost,
      syMain, syPop, syDrain, syRB, get_precedence, evaluate, evalGo,
      evalFinish, get_bin_op, cadd, cmul]
    norm_num [cadd, cmul]
  · simp [parse, scanChars, isNumChar, stodQ, digitsVal, get_operation,
      get_token_type, opTermChars, lbraceC, Except.map, Except.bind, toPost,
      syMain, syPop, syDrain, syRB, get_precedence]

/-- C5: converting `"(z+1"` fails with `MismatchedBrackets` (end-of-input
drain finds the unmatched open bracket); converting `"z+1)"` does *not*
reach the `MismatchedBrackets` throw — the close-bracket loop evaluates
`stack.top()` on the emptied stack before its (dead) emptiness guard,
which is undefined behaviour. -/
theorem c5_mismatched_brackets :
    (parse "(z+1").bind toPost = .error .mismatchedBrackets ∧
    (parse "z+1)").bind toPost = .error .ubEmptyTop ∧
    (Err.ubEmptyTop ≠ Err.mismatchedBrackets) := by
  refine ⟨?_, ?_, by decide⟩ <;>
    simp [parse, scanChars, isNumChar, stodQ, digitsVal, get_operation,
      get_token_type, opTermChars, lbraceC, Except.map, Except.bind, toPost,
      syMain, syPop, syDrain, syRB, get_precedence]

/-- C2: on the product `z*z` (postfix `[z z MUL]`) the claim predicts
the derivative `[z z ADD]` (both fast paths collapse, no zero term).
The code instead returns `[z z 1 MUL ADD]`: the `[g]`-side fast-path
guard `mid == std::prev(mid)` is never true, and
`p_2.insert(p_1.end(), begin, mid)` splices `[f]` into `p_1`. -/
theorem c2_mul_failing :
    wfP [varT, varT, mulT] ∧
    differentiateE ⟨[varT, varT, mulT], true⟩
      = .ok ⟨[varT, varT, c1T, mulT, addT], true⟩ ∧
    [varT, varT, c1T, mulT, addT] ≠ [varT, varT, addT] := by
  refine ⟨by decide, ?_, by decide⟩
  simp [differentiateE, differentiate, differentiate_bin_op,
    differentiate_bin_op_mul, subexpr_begin, locWalk, incr, varT, mulT, c1T,
    c0T, addT, disZero, dofList, dpush, dappend, dmoveAppend, List.getLast?,
    List.getLast, Except.map]

/-- C3: a well-formed input on which `differentiate` returns a sequence
that is *not* well-formed postfix: for `5*z` (postfix `[5 z MUL]`) the
`[f]`-side fast path sets `p_1 = [0]`, the cross-list insert then
splices `[5]` into `p_1`'s chain without updating its element count, so
the structural-zero test still sees `size() == 1, front() == 0` and
returns `p_2` — whose chain is `[1 MUL]`, a stack-underflowing
sequence. -/
theorem c3_wf_violated :
    wfP [⟨CONST, NO_OP, ⟨5, 0⟩⟩, varT, mulT] ∧
    differentiateE ⟨[⟨CONST, NO_OP, ⟨5, 0⟩⟩, varT, mulT], true⟩
      = .ok ⟨[c1T, mulT], true⟩ ∧
    ¬ wfP [c1T, mulT] := by
  refine ⟨by decide, ?_, by decide⟩
  simp [differentiateE, differentiate, differentiate_bin_op,
    differentiate_bin_op_mul, subexpr_begin, locWalk, incr, varT, mulT, c1T,
    c0T, addT, disZero, dofList, dpush, dappend, dmoveAppend, List.getLast?,
    List.getLast, Except.map]

/-! ### The pending-operand counter and the subexpression locator -/

/-- `delta` of a cons. -/
theorem delta_cons (t : token) (l : List token) :
    delta (t :: l) = net t + delta l := by
  simp [delta]

/-- `delta` of an append. -/
theorem delta_append (l1 l2 : List token) :
    delta (l1 ++ l2) = delta l1 + delta l2 := by
  simp [delta]

/-- `delta` is invariant under reversal. -/
theorem delta_reverse (l : List token) : delta l.reverse = delta l := by
  simp [delta, List.sum_reverse]

/-- Every token's net stack effect is at most one. -/
theorem net_le_one (t : token) : net t ≤ 1 := by
  simp [net]

/-- Soundness half of the counter characterisation: a successful run
determines the final count as `c + delta`, forces every nonempty prefix
to keep at least one pending operand, and excludes `OTHER_TYPE`
tokens. -/
theorem runCnt_some_spec :
    ∀ (l : List token) (c n : Nat), runCnt c l = some n →
      ((n : Int) = (c : Int) + delta l ∧
       (∀ j, 0 < j → j ≤ l.length → 1 ≤ (c : Int) + delta (l.take j)) ∧
       noOther l) := by
  intro l
  induction l with
  | nil =>
    intro c n h
    simp only [runCnt, Option.some.injEq] at h
    refine ⟨by simp [delta, ← h], ?_, by intro t ht; simp at ht⟩
    intro j hj1 hj2
    simp at hj2
    omega
  | cons t rest ih =>
    intro c n h
    rw [runCnt] at h
    cases hs : stepCnt c t with
    | none => rw [hs] at h; exact absurd h (by simp)
    | some c' =>
      rw [hs] at h
      obtain ⟨h1, h2, h3⟩ := ih c' n h
      have hty : t.type ≠ OTHER_TYPE := by
        intro hty; rw [stepCnt, hty] at hs; exact absurd hs (by simp)
      have hnet : net t = 1 - (incr t : Int) := rfl
      have hstep : ((c' : Int) = c + net t) ∧ 1 ≤ (c : Int) + net t := by
        cases ht : t.type <;> rw [stepCnt, ht] at hs
        · simp only [Option.some.injEq] at hs
          subst hs; constructor <;> simp [net, incr, ht] <;> omega
        · simp only [Option.some.injEq] at hs
          subst hs; constructor <;> simp [net, incr, ht] <;> omega
        · by_cases hc : 2 ≤ c
          · rw [if_pos hc] at hs
            simp only [Option.some.injEq] at hs
            subst hs
            constructor <;> simp [net, incr, ht] <;> omega
          · rw [if_neg hc] at hs; exact absurd hs (by simp)
        · by_cases hc : 1 ≤ c
          · rw [if_pos hc] at hs
            simp only [Option.some.injEq] at hs
            subst hs
            constructor <;> simp [net, incr, ht] <;> omega
          · rw [if_neg hc] at hs; exact absurd hs (by simp)
        · exact absurd ht hty
      refine ⟨by rw [delta_cons]; omega, ?_, ?_⟩
      · intro j hj1 hj2
        cases j with
        | zero => omega
        | succ j' =>
          rw [List.take_succ_cons, delta_cons]
          cases Nat.eq_zero_or_pos j' with
          | inl h0 => subst h0; simp [delta]; omega
          | inr hpos =>
            have := h2 j' hpos (by simpa using hj2)
            omega
      · intro u hu
        cases hu with
        | head => exact hty
        | tail _ hmem => exact h3 u hmem

/-- Completeness half of the counter characterisation. -/
theorem runCnt_some_of :
    ∀ (l : List token) (c n : Nat),
      (n : Int) = (c : Int) + delta l →
      (∀ j, 0 < j → j ≤ l.length → 1 ≤ (c : Int) + delta (l.take j)) →
      noOther l →
      runCnt c l = some n := by
  intro l
  induction l with
  | nil =>
    intro c n h1 _ _
    simp only [delta, List.map_nil, List.sum_nil, add_zero] at h1
    simp only [runCnt, Option.some.injEq]
    omega
  | cons t rest ih =>
    intro c n h1 h2 h3
    have hty : t.type ≠ OTHER_TYPE := h3 t (List.mem_cons_self t rest)
    have hfirst : 1 ≤ (c : Int) + net t := by
      have := h2 1 one_pos (by simp)
      simpa [List.take_succ_cons, delta_cons, delta] using this
    have hrest : ∀ j, 0 < j → j ≤ rest.length →
        1 ≤ (c : Int) + net t + delta (rest.take j) := by
      intro j hj1 hj2
      have := h2 (j + 1) (by omega) (by simp; omega)
      rw [List.take_succ_cons, delta_cons] at this
      omega
    have h1' : (n : Int) = ((c : Int) + net t) + delta rest := by
      rw [delta_cons] at h1; omega
    rw [runCnt]
    cases ht : t.type <;> rw [stepCnt, ht]
    · -- VAR
      have : ((c + 1 : Nat) : Int) = (c : Int) + net t := by
        simp [net, incr, ht]
      exact ih (c + 1) n (by omega) (fun j a b => by rw [this]; exact hrest j a b)
        (fun u hu => h3 u (List.mem_cons_of_mem t hu))
    · -- CONST
      have : ((c + 1 : Nat) : Int) = (c : Int) + net t := by
        simp [net, incr, ht]
      exact ih (c + 1) n (by omega) (fun j a b => by rw [this]; exact hrest j a b)
        (fun u hu => h3 u (List.mem_cons_of_mem t hu))
    · -- BIN_OP
      have hnet : net t = -1 := by simp [net, incr, ht]
      have hc : 2 ≤ c := by omega
      rw [if_pos hc]
      have : ((c - 1 : Nat) : Int) = (c : Int) + net t := by
        rw [hnet]; omega
      exact ih (c - 1) n (by omega) (fun j a b => by rw [this]; exact hrest j a b)
        (fun u hu => h3 u (List.mem_cons_of_mem t hu))
    · -- FUNC
      have hnet : net t = 0 := by simp [net, incr, ht]
      have hc : 1 ≤ c := by omega
      rw [if_pos hc]
      have : ((c : Nat) : Int) = (c : Int) + net t := by rw [hnet]; omega
      exact ih c n (by omega) (fun j a b => by rw [this]; exact hrest j a b)
        (fun u hu => h3 u (List.mem_cons_of_mem t hu))
    · exact absurd ht hty

/-- Running the counter over an append is running it in sequence. -/
theorem runCnt_append :
    ∀ (p q : List token) (c : Nat),
      runCnt c (p ++ q) = (runCnt c p).bind (fun m => runCnt m q) := by
  intro p
  induction p with
  | nil => intro q c; simp [runCnt]
  | cons t rest ih =>
    intro q c
    simp only [List.cons_append, runCnt]
    cases hs : stepCnt c t with
    | none => simp
    | some c' => simp [ih]

/-- Soundness of the backward walk: consuming `n` tokens from the
reversed prefix, the consumed slice has `delta = k`, and every shorter
consumed slice has `delta ≤ k - 1` (the pending count stays positive). -/
theorem locWalk_sound :
    ∀ (rev : List token) (k n : Nat), locWalk k rev = some n →
      (n ≤ rev.length ∧ delta (rev.take n) = (k : Int) ∧
       ∀ m, m < n → delta (rev.take m) ≤ (k : Int) - 1) := by
  intro rev
  induction rev with
  | nil =>
    intro k n h
    cases k with
    | zero =>
      simp only [locWalk, Option.some.injEq] at h
      subst h
      exact ⟨by simp, by simp [delta], by omega⟩
    | succ k' => exact absurd h (by simp [locWalk])
  | cons t rest ih =>
    intro k n h
    cases k with
    | zero =>
      simp only [locWalk, Option.some.injEq] at h
      subst h
      exact ⟨by simp, by simp [delta], by omega⟩
    | succ k' =>
      rw [locWalk] at h
      obtain ⟨n', hw, hn⟩ := Option.map_eq_some'.mp h
      obtain ⟨hlen, hdelta, hmono⟩ := ih (k' + incr t) n' hw
      subst hn
      have hnet : net t = 1 - (incr t : Int) := rfl
      refine ⟨by simp only [List.length_cons]; omega, ?_, ?_⟩
      · rw [List.take_succ_cons, delta_cons]
        push_cast at hdelta ⊢
        omega
      · intro m hm
        cases m with
        | zero =>
          simp only [List.take_zero, delta, List.map_nil, List.sum_nil]
          omega
        | succ m' =>
          rw [List.take_succ_cons, delta_cons]
          have := hmono m' (by omega)
          push_cast at this ⊢
          omega

/-- Completeness of the backward walk: it cannot run off the front when
some consumed slice reaches `delta = k`. -/
theorem locWalk_isSome :
    ∀ (rev : List token) (k : Nat),
      (∃ j, j ≤ rev.length ∧ delta (rev.take j) = (k : Int)) →
      ∃ n, locWalk k rev = some n := by
  intro rev
  induction rev with
  | nil =>
    intro k ⟨j, hj, hd⟩
    cases k with
    | zero => exact ⟨0, rfl⟩
    | succ k' =>
      have hj0 : j = 0 := by simpa using hj
      subst hj0
      simp only [List.take_zero, delta, List.map_nil, List.sum_nil] at hd
      omega
  | cons t rest ih =>
    intro k ⟨j, hj, hd⟩
    cases k with
    | zero => exact ⟨0, rfl⟩
    | succ k' =>
      cases j with
      | zero =>
        simp only [List.take_zero, delta, List.map_nil, List.sum_nil] at hd
        omega
      | succ j' =>
        rw [List.take_succ_cons, delta_cons] at hd
        have hnet : net t = 1 - (incr t : Int) := rfl
        have : delta (rest.take j') = ((k' + incr t : Nat) : Int) := by
          push_cast
          omega
        obtain ⟨n', hw⟩ := ih (k' + incr t) ⟨j', by simpa using hj, this⟩
        exact ⟨n' + 1, by rw [locWalk, hw]; rfl⟩

/-- Discrete intermediate value: `delta` over prefixes moves in steps of
at most `+1`, so every value between 1 and `delta l` is attained by some
prefix. -/
theorem exists_take_delta :
    ∀ (l : List token) (m : Int), 0 < m → m ≤ delta l →
      ∃ j, j ≤ l.length ∧ delta (l.take j) = m := by
  intro l
  induction l with
  | nil =>
    intro m hm hle
    simp only [delta, List.map_nil, List.sum_nil] at hle
    omega
  | cons t rest ih =>
    intro m hm hle
    by_cases h1 : m - net t = 0
    · refine ⟨1, by simp, ?_⟩
      rw [List.take_succ_cons, List.take_zero, delta_cons]
      simp [delta]
      omega
    · have hnet := net_le_one t
      rw [delta_cons] at hle
      obtain ⟨j, hj, hd⟩ := ih (m - net t) (by omega) (by omega)
      refine ⟨j + 1, by simp; omega, ?_⟩
      rw [List.take_succ_cons, delta_cons, hd]
      omega

/-- Master locator theorem: on a prefix `[0, e)` that the counter
accepts with any final count, `subexpr_begin` succeeds, the located
slice `[s, e)` is well-formed postfix, and no shorter suffix ending at
`e` is. -/
theorem subexpr_spec (l : List token) (e d : Nat)
    (hrun : runCnt 0 (l.take e) = some d) (he1 : 1 ≤ e) (he2 : e ≤ l.length) :
    ∃ s, subexpr_begin l e = some s ∧ s < e ∧ wfP ((l.take e).drop s) ∧
      ∀ m, s < m → m ≤ e → ¬ wfP ((l.take e).drop m) := by
  obtain ⟨hd, hpre, hno⟩ := runCnt_some_spec (l.take e) 0 d hrun
  have hplen : (l.take e).length = e := by simp; omega
  have hfull : (l.take e).take e = l.take e := by
    rw [List.take_of_length_le (le_of_eq hplen)]
  have hd1 : 1 ≤ delta (l.take e) := by
    have := hpre e he1 (by omega)
    rw [hfull] at this
    simpa using this
  -- translate reversed-prefix slices to suffixes of the prefix
  have hrevlen : (l.take e).reverse.length = e := by simp [hplen]
  have htrans : ∀ m, m ≤ e →
      delta ((l.take e).reverse.take m) = delta ((l.take e).drop (e - m)) := by
    intro m hm
    rw [List.take_reverse, hplen, delta_reverse]
  -- the walk succeeds
  obtain ⟨j, hj, hdj⟩ :=
    exists_take_delta (l.take e).reverse 1 one_pos
      (by rwa [delta_reverse])
  obtain ⟨n, hw⟩ := locWalk_isSome (l.take e).reverse 1 ⟨j, hj, by exact_mod_cast hdj⟩
  obtain ⟨hlen, hdelta, hmono⟩ := locWalk_sound _ 1 n hw
  have hn1 : 1 ≤ n := by
    rcases Nat.eq_zero_or_pos n with h0 | h; swap
    · exact h
    · subst h0
      simp [delta] at hdelta
  have hne : subexpr_begin l e = some (e - n) := by
    rw [subexpr_begin, hw]; rfl
  have hnle : n ≤ e := by omega
  refine ⟨e - n, hne, by omega, ?_, ?_⟩
  · -- the slice [e-n, e) is well-formed
    have hslen : ((l.take e).drop (e - n)).length = n := by simp [hplen]; omega
    have hsd : delta ((l.take e).drop (e - n)) = 1 := by
      rw [← htrans n hnle]
      simpa using hdelta
    refine runCnt_some_of _ 0 1 (by rw [hsd]; simp) ?_ ?_
    · -- prefixes of the slice keep a pending operand
      intro j hj1 hj2
      rw [hslen] at hj2
      have hsplit : delta (((l.take e).drop (e - n)).take j) =
          delta ((l.take e).drop (e - n)) - delta ((l.take e).drop (e - n + j)) := by
        have hdd : (l.take e).drop (e - n + j) =
            (((l.take e).drop (e - n)).drop j) := by
          rw [List.drop_drop]
        have := List.take_append_drop j ((l.take e).drop (e - n))
        have hh := congrArg delta this
        rw [delta_append] at hh
        rw [hdd]
        omega
      rw [hsplit, hsd]
      have : delta ((l.take e).drop (e - n + j)) ≤ 0 := by
        rcases Nat.lt_or_ge j n with hlt | hge
        · have hm := hmono (n - j) (by omega)
          have := htrans (n - j) (by omega)
          rw [show e - (n - j) = e - n + j by omega] at this
          rw [this] at hm
          omega
        · have hj' : j = n := by omega
          have hnil : (l.take e).drop (e - n + j) = [] := by
            apply List.drop_eq_nil_of_le
            simp only [hplen]
            omega
          rw [hnil]
          simp [delta]
      omega
    · -- no OTHER_TYPE tokens in the slice
      intro u hu
      exact hno u (List.drop_subset _ _ hu)
  · -- minimality
    intro m hm1 hm2 hwf
    obtain ⟨hd', _, _⟩ := runCnt_some_spec _ 0 1 hwf
    have : delta ((l.take e).drop m) = 1 := by omega
    have hm' : delta ((l.take e).reverse.take (e - m)) = delta ((l.take e).drop m) := by
      have := htrans (e - m) (by omega)
      rw [show e - (e - m) = m by omega] at this
      exact this
    have hle0 := hmono (e - m) (by omega)
    rw [hm'] at hle0
    omega

/-- C1: for every well-formed postfix sequence and boundary
`1 ≤ e ≤ length`, `subexpr_begin` returns a start `s < e` such that the
slice `[s, e)` is itself well-formed postfix, and no strictly shorter
suffix ending at `e` is well-formed. -/
theorem c1_subexpr_begin (l : List token) (e : Nat)
    (hwf : wfP l) (he1 : 1 ≤ e) (he2 : e ≤ l.length) :
    ∃ s, subexpr_begin l e = some s ∧ s < e ∧ wfP ((l.take e).drop s) ∧
      ∀ m, s < m → m ≤ e → ¬ wfP ((l.take e).drop m) := by
  have hsplit := runCnt_append (l.take e) (l.drop e) 0
  rw [List.take_append_drop] at hsplit
  rw [wfP] at hwf
  rw [hwf] at hsplit
  cases hp : runCnt 0 (l.take e) with
  | none => rw [hp] at hsplit; simp at hsplit
  | some d => exact subexpr_spec l e d hp he1 he2

/-- Witness for C1: the sequence `[z z MUL]` with boundary 2 locates the
single-token slice `[z]` at position 1. -/
theorem c1_witness :
    wfP [varT, varT, mulT] ∧ 1 ≤ 2 ∧ 2 ≤ ([varT, varT, mulT] : List token).length ∧
    ∃ s, subexpr_begin [varT, varT, mulT] 2 = some s ∧ s < 2 ∧
      wfP ((([varT, varT, mulT] : List token).take 2).drop s) ∧
      ∀ m, s < m → m ≤ 2 →
        ¬ wfP ((([varT, varT, mulT] : List token).take 2).drop m) :=
  ⟨by decide, by decide, by decide,
   c1_subexpr_begin [varT, varT, mulT] 2 (by decide) (by decide) (by decide)⟩

/-! ### The elementary-derivative table and the missing-derivative error -/

/-- A well-formed sequence is nonempty. -/
theorem wf_ne_nil (l : List token) (h : wfP l) : l ≠ [] := by
  intro hh
  subst hh
  exact absurd h (by decide)

/-- A sequence with a known last token splits off that token. -/
theorem dropLast_append_of_getLast? (l : List token) (t : token)
    (hl : l.getLast? = some t) : l.dropLast ++ [t] = l := by
  have hne : l ≠ [] := by intro hh; subst hh; simp at hl
  have hg := List.getLast?_eq_getLast l hne
  rw [hg] at hl
  injection hl with h'
  rw [← h']
  exact List.dropLast_concat_getLast hne

/-- Stripping a trailing unary function from a well-formed sequence
leaves a well-formed sequence. -/
theorem wf_body_func (l : List token) (t : token) (hl : l.getLast? = some t)
    (ht : t.type = FUNC) (hwf : wfP l) : wfP l.dropLast := by
  have happ := dropLast_append_of_getLast? l t hl
  rw [wfP] at hwf ⊢
  rw [← happ, runCnt_append] at hwf
  cases hb : runCnt 0 l.dropLast with
  | none => rw [hb] at hwf; exact absurd hwf (by simp)
  | some c =>
    rw [hb] at hwf
    simp only [Option.some_bind] at hwf
    rw [runCnt, stepCnt, ht] at hwf
    by_cases hc : 1 ≤ c
    · rw [if_pos hc] at hwf
      simp only [runCnt, Option.some.injEq] at hwf
      exact congrArg some hwf
    · rw [if_neg hc] at hwf
      exact absurd hwf (by simp)

/-- Stripping a trailing binary operator from a well-formed sequence
leaves a counter run finishing at two pending operands. -/
theorem wf_body_bin (l : List token) (t : token) (hl : l.getLast? = some t)
    (ht : t.type = BIN_OP) (hwf : wfP l) : runCnt 0 l.dropLast = some 2 := by
  have happ := dropLast_append_of_getLast? l t hl
  rw [wfP] at hwf
  rw [← happ, runCnt_append] at hwf
  cases hb : runCnt 0 l.dropLast with
  | none => rw [hb] at hwf; exact absurd hwf (by simp)
  | some c =>
    rw [hb] at hwf
    simp only [Option.some_bind] at hwf
    rw [runCnt, stepCnt, ht] at hwf
    by_cases hc : 2 ≤ c
    · rw [if_pos hc] at hwf
      simp only [runCnt, Option.some.injEq] at hwf
      exact congrArg some (by omega)
    · rw [if_neg hc] at hwf
      exact absurd hwf (by simp)

/-- A well-formed single token is a leaf. -/
theorem wf_single (b : token) (h : wfP [b]) : b.type = VAR ∨ b.type = CONST := by
  cases hb : b.type
  · exact Or.inl rfl
  · exact Or.inr rfl
  · rw [wfP, runCnt, stepCnt, hb] at h; exact absurd h (by simp)
  · rw [wfP, runCnt, stepCnt, hb] at h; exact absurd h (by simp)
  · rw [wfP, runCnt, stepCnt, hb] at h; exact absurd h (by simp)

/-- `differentiate` dispatches a trailing `FUNC` token to
`differentiate_func`. -/
theorem differentiate_eq_of_func (l : List token) (t : token)
    (hl : l.getLast? = some t) (ht : t.type = FUNC) :
    differentiate l = differentiate_func l := by
  unfold differentiate
  split
  · rename_i heq; rw [heq] at hl; exact absurd hl (by simp)
  · rename_i t' heq
    rw [hl] at heq
    injection heq with h'
    subst h'
    rw [ht]

/-- The body of `differentiate_func` with the trailing token known. -/
theorem differentiate_func_reduce (l : List token) (t : token)
    (hl : l.getLast? = some t) (ht : t.type = FUNC) :
    differentiate_func l =
      (if l.dropLast.length = 1 then
        match l.dropLast.head? with
        | some b =>
          if b.type = CONST then .ok ⟨[c0T], 1⟩
          else if b.type = VAR then
            match get_deriv t.op with
            | none => .error .derivNotFound
            | some d => .ok (dpushFront varT d)
          else .error .logicErr
        | none => .error .logicErr
      else
        match differentiate l.dropLast with
        | .error e => .error e
        | .ok gd =>
          match get_deriv t.op with
          | none => .error .derivNotFound
          | some fd => .ok (dpush (dmoveAppend (dappend gd l.dropLast) fd) mulT)) := by
  unfold differentiate_func
  split
  · rename_i heq; rw [heq] at hl; exact absurd hl (by simp)
  · rename_i t' heq
    rw [hl] at heq
    injection heq with h'
    subst h'
    rw [if_pos ht]

/-- `get_deriv` has no entry away from `SIN` and `COS`. -/
theorem get_deriv_eq_none (op : operation) (h1 : op ≠ SIN) (h2 : op ≠ COS) :
    get_deriv op = none := by
  cases op
  all_goals first
    | rfl
    | exact absurd rfl h1
    | exact absurd rfl h2

/-- C10 counterexample: the well-formed postfix sequence
`[z z {BIN_OP COS} {FUNC EXP}]` ends in a `FUNC` operation without a
`get_deriv` entry and its argument is not a single constant, yet
`differentiate` throws `InvalidDifferentiation` (the argument's own
differentiation hits the unimplemented binary operator first), not the
missing-derivative error the claim promises. -/
theorem c10_counterexample :
    wfP [varT, varT, ⟨BIN_OP, COS, ⟨0, 0⟩⟩, ⟨FUNC, EXP, ⟨0, 0⟩⟩] ∧
    ([varT, varT, ⟨BIN_OP, COS, ⟨0, 0⟩⟩, ⟨FUNC, EXP, ⟨0, 0⟩⟩] : List token).getLast?
      = some ⟨FUNC, EXP, ⟨0, 0⟩⟩ ∧
    (FUNC = FUNC ∧ EXP ≠ SIN ∧ EXP ≠ COS) ∧
    ([varT, varT, ⟨BIN_OP, COS, ⟨0, 0⟩⟩, ⟨FUNC, EXP, ⟨0, 0⟩⟩] : List token).dropLast.length = 3 ∧
    differentiate [varT, varT, ⟨BIN_OP, COS, ⟨0, 0⟩⟩, ⟨FUNC, EXP, ⟨0, 0⟩⟩]
      = .error .invalidDiff ∧
    Err.invalidDiff ≠ Err.derivNotFound := by
  refine ⟨by decide, by decide, by decide, by decide, ?_, by decide⟩
  simp [differentiate, differentiate_func, differentiate_bin_op, subexpr_begin,
    locWalk, incr, varT, get_deriv, List.getLast?, List.getLast, Except.map]

/-- C10 amended: `get_deriv` has entries exactly for `SIN` and `COS`;
for every well-formed postfix expression ending in any other `FUNC`
operation whose argument is not a single Constant token,
`differentiate` never returns a result: it throws the
missing-derivative error, unless differentiating the argument itself
throws first, in which case that error propagates. -/
theorem c10_missing_derivative (l : List token) (t : token)
    (hwf : wfP l) (hl : l.getLast? = some t) (ht : t.type = FUNC)
    (hsin : t.op ≠ SIN) (hcos : t.op ≠ COS)
    (harg : ∀ b, l.dropLast = [b] → b.type ≠ CONST) :
    (∀ op : operation, (get_deriv op).isSome ↔ (op = SIN ∨ op = COS)) ∧
    (differentiate l = .error .derivNotFound ∨
      ∃ e, differentiate l.dropLast = .error e ∧ differentiate l = .error e) := by
  have hd : get_deriv t.op = none := get_deriv_eq_none t.op hsin hcos
  refine ⟨by decide, ?_⟩
  rw [differentiate_eq_of_func l t hl ht, differentiate_func_reduce l t hl ht]
  by_cases hb1 : l.dropLast.length = 1
  · rw [if_pos hb1]
    obtain ⟨b, hb⟩ := List.length_eq_one.mp hb1
    have hbwf : wfP l.dropLast := wf_body_func l t hl ht hwf
    rw [hb] at hbwf ⊢
    have hbc : b.type ≠ CONST := harg b hb
    cases wf_single b hbwf with
    | inl hv =>
      simp only [List.head?_cons]
      rw [if_neg hbc, if_pos hv, hd]
      exact Or.inl rfl
    | inr hc => exact absurd hc hbc
  · rw [if_neg hb1]
    cases hrec : differentiate l.dropLast with
    | error e =>
      exact Or.inr ⟨e, rfl, rfl⟩
    | ok gd =>
      rw [hd]
      exact Or.inl rfl

/-- Witness for C10 at `[z exp]` (the expression `exp(z)`), whose
differentiation indeed fails with the missing-derivative error. -/
theorem c10_witness :
    (wfP [varT, ⟨FUNC, EXP, ⟨0, 0⟩⟩] ∧
     ([varT, ⟨FUNC, EXP, ⟨0, 0⟩⟩] : List token).getLast? = some ⟨FUNC, EXP, ⟨0, 0⟩⟩ ∧
     (FUNC = FUNC ∧ EXP ≠ SIN ∧ EXP ≠ COS)) ∧
    ((∀ op : operation, (get_deriv op).isSome ↔ (op = SIN ∨ op = COS)) ∧
     (differentiate [varT, ⟨FUNC, EXP, ⟨0, 0⟩⟩] = .error .derivNotFound ∨
       ∃ e, differentiate ([varT, ⟨FUNC, EXP, ⟨0, 0⟩⟩] : List token).dropLast = .error e ∧
         differentiate [varT, ⟨FUNC, EXP, ⟨0, 0⟩⟩] = .error e)) := by
  refine ⟨⟨by decide, by decide, by decide⟩, ?_⟩
  exact c10_missing_derivative [varT, ⟨FUNC, EXP, ⟨0, 0⟩⟩] ⟨FUNC, EXP, ⟨0, 0⟩⟩
    (by decide) (by decide) (by decide) (by decide) (by decide)
    (by intro b hb; simp at hb; rw [← hb]; decide)

end MathParser
